import Mathlib

/-!
Shallow embedding of `src/services/migration.service.ts`.

This file models the `MigrationService` class of the repository
`loopback-mongodb-migrate` (file `src/services/migration.service.ts`).

Modelling conventions:
* JavaScript strings are Lean `String`s; the JS `<` comparison on strings
  (UTF-16 code-unit lexicographic) is modelled by Lean's lexicographic
  `String` order, which agrees on ASCII data.
* The ambient clock (`new Date()`) is an explicit `DateParts`/ISO-string
  parameter of the environment.
* Side effects (debug log lines, ledger reads/writes, file writes, invoked
  transforms) are threaded through an explicit state `MState`.  An uncaught
  exception is the `some`-case of the returned `Option String`; the returned
  state records the side effects performed before the throw.
* `path.join`/`path.resolve` are modelled as plain slash concatenation
  (no `..`-normalisation); only debug-log text depends on this.
* `console.log({...})` output (not a `debug` line) is not recorded.
-/

/-- The abstract database state mutated by migration transforms
(`RepositoryModules` handles in the source). We use a free event log, which is
rich enough to observe every invocation a transform makes. -/
abbrev Store := List String

/-- One persisted ledger record (`Migrations` model): the source creates
`{filename, dateMigrated: new Date().toISOString()}`. -/
structure LedgerEntry where
  filename : String
  dateMigrated : String
deriving Repr, DecidableEq

/-- A dynamically imported migration module: its `up` and `down` exports may be
absent (`!migrationActions.up` / `!migrationActions.down` in the source), and an
invoked transform may throw (`Except.error`). -/
structure MigModule where
  up : Option (Store → Except String Store)
  down : Option (Store → Except String Store)

/-- Local wall-clock components as read by the source from `new Date()`:
`getMonth()` (0-based), `getDate()`, `getFullYear()`, `getHours()`,
`getMinutes()`, `getSeconds()`. -/
structure DateParts where
  month0 : Nat
  dayOfMonth : Nat
  year : Nat
  hours : Nat
  minutes : Nat
  seconds : Nat

/-- Termination of the spawned `sh -c "mongodump ..."` process: either the
`error` event fires (launch failure) or the `close` event fires with some exit
code. -/
inductive ProcOutcome where
  | launchFailure (msg : String)
  | closed (code : Int)

/-- `MongoDbBackUpOptions` from the source; each field may be absent, in which
case the destructuring defaults of `backupMongoDb` apply. -/
structure MongoDbBackUpOptions where
  DATASOURCE_URL : Option String
  DB_BACKUP_DIR : Option String
  ROOT_DIR : Option String

/-- The read-only environment of one `migrate` invocation: the directory
listing, the module resolver of the built migration directory, the
`fs.existsSync` oracle for built `.js` files, the clock, and the backup
process outcome. -/
structure Env where
  files : List String
  modules : String → MigModule
  existsJs : String → Bool
  clock : DateParts
  nowIso : String
  backupOutcome : ProcOutcome
  backUpOptions : MongoDbBackUpOptions
  rootDir : String
  rawDirExists : Bool

/-- The mutable world: the migration ledger collection, the database state,
the debug log, the trace of invoked transforms, and paths written by `create`. -/
structure MState where
  ledger : List LedgerEntry
  store : Store
  log : List String
  executedUp : List String
  executedDown : List String
  fsWrites : List String

/-- `padStart(2, '0')` on a decimal string. -/
def pad2 (s : String) : String :=
  if s.length < 2 then String.mk (List.replicate (2 - s.length) '0') ++ s else s

/-- `.trim()`: strip leading and trailing whitespace. -/
def jsTrim (s : String) : String :=
  String.mk (((s.data.dropWhile Char.isWhitespace).reverse.dropWhile
    Char.isWhitespace).reverse)

/-- `.toLowerCase()` (ASCII-faithful). -/
def jsToLower (s : String) : String :=
  String.mk (s.data.map Char.toLower)

/-- `.replace(/_/g, '-')`. -/
def jsReplaceUnderscores (s : String) : String :=
  String.mk (s.data.map (fun c => if c = '_' then '-' else c))

/-- `filename.trim().toLowerCase().replace(/_/g, '-')`, the normalisation used
by `generateMigrationFile` and `appendTimestampToFilename`. -/
def transformName (filename : String) : String :=
  jsReplaceUnderscores (jsToLower (jsTrim filename))

/-- `appendTimestampToFilename(filename, extension)` of the source, with the
wall clock made explicit. -/
def appendTimestampToFilename (d : DateParts) (filename : String)
    (extension : Option String) : String :=
  let transformedName := transformName filename
  let hr := pad2 (toString d.hours)
  let mn := pad2 (toString d.minutes)
  let sec := pad2 (toString d.seconds)
  let month := pad2 (toString (d.month0 + 1))
  let day := pad2 (toString d.dayOfMonth)
  let year := toString d.year
  let stringDate := month ++ "-" ++ day ++ "-" ++ year ++ "_" ++ hr ++ mn ++ sec
  transformedName ++ "_" ++ stringDate ++
    (match extension with
     | some e => "." ++ e
     | none => "")

/-- `split(sep)` of JS on a one-character separator: the list of
separator-free groups ( `"".split(sep)` is `[""]`, and adjacent separators
produce empty groups). -/
def splitOnChar (sep : Char) : List Char → List (List Char)
  | [] => [[]]
  | c :: rest =>
    match splitOnChar sep rest with
    | [] => [[]]
    | g :: gs => if c = sep then [] :: g :: gs else (c :: g) :: gs

/-- `join('_')` of JS on a list of groups. -/
def joinUnderscore : List (List Char) → List Char
  | [] => []
  | [g] => g
  | g :: gs => g ++ '_' :: joinUnderscore gs

/-- The key both filenames are reduced to inside the `sortFiles` comparator:
`split('_')`, `shift()`, `join('_')` — i.e. drop the segment before the first
underscore and rejoin the rest. -/
def suffixKey (file : String) : String :=
  String.mk (joinUnderscore ((splitOnChar '_' file.data).drop 1))

/-- Lexicographic (code-unit) comparison of character lists: the embedding of
the JS `<` operator on strings. -/
def charListLt : List Char → List Char → Bool
  | [], [] => false
  | [], _ :: _ => true
  | _ :: _, [] => false
  | a :: as, b :: bs =>
    if a < b then true else if b < a then false else charListLt as bs

/-- The JS `<` operator on strings (lexicographic by code unit). -/
def jsStrLt (a b : String) : Bool := charListLt a.data b.data

/-- The comparator passed to `Array.prototype.sort` in `sortFiles`:
`0` on equal suffix keys, `-1` when the first key is smaller, else `1`. -/
def fileCompare (file1 file2 : String) : Int :=
  let file1Part := suffixKey file1
  let file2Part := suffixKey file2
  if file1Part = file2Part then 0 else if jsStrLt file1Part file2Part then -1 else 1

/-- The non-strict order induced by the comparator (`comparator ≤ 0`), which is
what `Array.prototype.sort` sorts by for a consistent comparator. -/
def fileSortLe (file1 file2 : String) : Bool :=
  decide (fileCompare file1 file2 ≤ 0)

/-- `sortFiles` of the source: sort the pending filenames with the comparator.
(`Array.prototype.sort` with a consistent comparator is modelled by
`mergeSort` on the induced boolean order.) -/
def sortFiles (toMigrateFiles : List String) : List String :=
  toMigrateFiles.mergeSort fileSortLe

/-- `file.replace(/(.ts)$/g, '')`: the regex needs one arbitrary character
(the dot; its newline exception is not modelled) followed by `ts` at the end
of the string, so it strips the last three characters exactly when the name
has length ≥ 3 and ends in `ts`. -/
def stripTs (s : String) : String :=
  match s.data.reverse with
  | 's' :: 't' :: _ :: rest => String.mk rest.reverse
  | _ => s

/-- Boolean test that `needle` is a leading block of `hay`. -/
def listPrefixB : List Char → List Char → Bool
  | [], _ => true
  | _ :: _, [] => false
  | a :: as, b :: bs => a == b && listPrefixB as bs

/-- Boolean substring test on character lists. -/
def listInfixB (needle : List Char) : List Char → Bool
  | [] => needle.isEmpty
  | b :: bs => listPrefixB needle (b :: bs) || listInfixB needle bs

/-- `hay.includes(needle)` of JS (substring containment). -/
def strContains (hay needle : String) : Bool :=
  listInfixB needle.toList hay.toList

/-- The ledgered filenames: `migratedFilesFromDb.map(f => f.filename)`. -/
def ledgerNames (st : MState) : List String :=
  st.ledger.map (fun e => e.filename)

/-- `files.filter(file => migratedFilenames.indexOf(file) === -1)`. -/
def pendingFiles (files migratedFilenames : List String) : List String :=
  files.filter (fun file => !(migratedFilenames.contains file))

/-- How the forward loop of `executeMigration` ended: ran through the whole
list, returned early because an `up` export was missing, or propagated a
transform exception. -/
inductive UpOutcome where
  | completed
  | aborted
  | failed (e : String)
deriving Repr, DecidableEq

/-- The `for (const file of toMigrateFiles)` loop of the `up` branch of
`executeMigration`. -/
def runUp (env : Env) (isTest : Bool) : List String → MState → MState × UpOutcome
  | [], st => (st, UpOutcome.completed)
  | file :: rest, st =>
    let migrationActions := env.modules (stripTs file)
    match migrationActions.up with
    | none =>
      ({ st with log := st.log ++ ["migration up function not found"] },
       UpOutcome.aborted)
    | some up =>
      let st1 := { st with log := st.log ++ ["Migrating up " ++ file],
                           executedUp := st.executedUp ++ [file] }
      match up st1.store with
      | Except.error e => (st1, UpOutcome.failed e)
      | Except.ok store2 =>
        let st2 := { st1 with store := store2 }
        let st3 :=
          if isTest then st2
          else { st2 with ledger := st2.ledger ++
                   [{ filename := file, dateMigrated := env.nowIso }] }
        runUp env isTest rest
          { st3 with log := st3.log ++ [file ++ " migrated successfully"] }

/-- The `for (const file of filteredFiles)` loop of the `down` branch of
`executeMigration`. -/
def runDown (env : Env) : List String → MState → MState × Option String
  | [], st => (st, none)
  | file :: rest, st =>
    let fileToExecute := stripTs file
    let st0 := { st with log := st.log ++ ["File to execute: " ++ fileToExecute] }
    if env.existsJs fileToExecute then
      let migrationActions := env.modules fileToExecute
      match migrationActions.down with
      | none =>
        ({ st0 with log := st0.log ++ ["migration down function not found"] }, none)
      | some down =>
        let st1 := { st0 with log := st0.log ++ ["Migrating down " ++ file],
                              executedDown := st0.executedDown ++ [file] }
        match down st1.store with
        | Except.error e => (st1, some e)
        | Except.ok s2 =>
          runDown env rest
            { st1 with store := s2,
                       log := st1.log ++ [file ++ " migrated down successfully"] }
    else runDown env rest st0

/-- Slash concatenation standing in for `path.join` (no normalisation). -/
def joinPath (a b : String) : String := a ++ "/" ++ b

/-- `backupMongoDb` of the source: rejects with the tool's message when the
spawn `error` event fires; resolves `true` on the `close` event, whatever the
exit code (`(_code) => resolve(true)`). -/
def backupMongoDb (env : Env) (st : MState) : MState × Option String :=
  let rootDir := (env.backUpOptions.ROOT_DIR).getD env.rootDir
  let backupDir := (env.backUpOptions.DB_BACKUP_DIR).getD "../backup"
  let pathForDbBackup :=
    joinPath rootDir (backupDir ++ "/" ++ appendTimestampToFilename env.clock "db" none)
  let st0 := { st with log := st.log ++ ["Backing up database to: " ++ pathForDbBackup] }
  match env.backupOutcome with
  | ProcOutcome.launchFailure msg =>
    ({ st0 with log := st0.log ++ ["error: " ++ msg] }, some msg)
  | ProcOutcome.closed _ =>
    ({ st0 with log := st0.log ++ ["Finished backup"] }, none)

/-- `executeMigration(action, repositories, filename, isTest)` of the source. -/
def executeMigration (env : Env) (action filename : String) (isTest : Bool)
    (st : MState) : MState × Option String :=
  let files := env.files
  let migratedFilenames := ledgerNames st
  let toMigrateFiles := pendingFiles files migratedFilenames
  if action = "backup" then
    backupMongoDb env st
  else if action = "down" then
    if filename = "" then
      ({ st with log := st.log ++ ["Filename is missing"] }, none)
    else
      let filteredFiles := migratedFilenames.filter (fun file => strContains file filename)
      if filteredFiles.isEmpty then
        ({ st with log := st.log ++
             ["You\x27re trying to migrate down a file that is not yet migrated"] },
         none)
      else runDown env filteredFiles st
  else
    let st0 :=
      if toMigrateFiles.isEmpty then
        { st with log := st.log ++ ["No migrations to execute. Database is up to date"] }
      else st
    let p := runUp env isTest (sortFiles toMigrateFiles) st0
    (p.1,
     match p.2 with
     | UpOutcome.failed e => some e
     | _ => none)

/-- The raw migration directory `path.join(rootDir, '/src/migrations')`. -/
def rawMigrationDir (env : Env) : String := env.rootDir ++ "/src/migrations"

/-- `generateMigrationFile(filename)` of the source: create the folder when
absent, then write the timestamped file. -/
def generateMigrationFile (env : Env) (filename : String) (st : MState) :
    MState × Option String :=
  let st0 :=
    if env.rawDirExists then st
    else { st with log := st.log ++ ["Generated migrations folder"] }
  let transformedName := transformName filename
  let stringDate := appendTimestampToFilename env.clock transformedName (some "ts")
  let migrationFilename := rawMigrationDir env ++ "/" ++ stringDate
  ({ st0 with fsWrites := st0.fsWrites ++ [migrationFilename],
              log := st0.log ++ ["Generated migration file " ++ migrationFilename] },
   none)

/-- `migrate(args, repositories)` of the source: `args[2]` selects the action
(JS truthiness: the empty string counts as absent), `args[3]` is the
name/token, and `isTest` is `args[3] === 'test'`.  A thrown `Error` is the
`some`-case of the second component. -/
def migrate (env : Env) (args : List String) (st : MState) : MState × Option String :=
  let action : Option String :=
    match args[2]? with
    | some a => if a = "" then none else some a
    | none => none
  let filename : Option String :=
    match args[3]? with
    | some a => if a = "" then none else some a
    | none => none
  let isTest : Bool := args[3]? == some "test"
  if action == some "create" then
    match filename with
    | none => (st, some "Filename is missing")
    | some name => generateMigrationFile env name st
  else if action == some "up" || action == some "down" then
    executeMigration env (action.getD "") (filename.getD "") isTest st
  else if action == some "backup" then
    executeMigration env "backup" "" false st
  else
    ({ st with log := st.log ++
        ["Command <create> Example: npm run migrate create <migration-name>",
         "Command <up> Example: npm run migrate up",
         "Command <down> Example: npm run migrate down"] },
     none)

/-! ## Forward-loop trace characterization -/

structure UpTrace where
  store : Store
  executed : List String
  succeeded : List String
  log : List String
  outcome : UpOutcome

def upTrace (env : Env) : List String → Store → UpTrace
  | [], s =>
    { store := s, executed := [], succeeded := [], log := [],
      outcome := UpOutcome.completed }
  | file :: rest, s =>
    match (env.modules (stripTs file)).up with
    | none =>
      { store := s, executed := [], succeeded := [],
        log := ["migration up function not found"], outcome := UpOutcome.aborted }
    | some up =>
      match up s with
      | Except.error e =>
        { store := s, executed := [file], succeeded := [],
          log := ["Migrating up " ++ file], outcome := UpOutcome.failed e }
      | Except.ok s2 =>
        let r := upTrace env rest s2
        { store := r.store, executed := file :: r.executed,
          succeeded := file :: r.succeeded,
          log := ("Migrating up " ++ file) :: (file ++ " migrated successfully") :: r.log,
          outcome := r.outcome }

def entryOf (env : Env) (f : String) : LedgerEntry :=
  { filename := f, dateMigrated := env.nowIso }


/-! ## Concrete environments and states used by evaluation witnesses -/

/-- A neutral environment: no discovered files, no modules, clock fixed at
2024-05-07 03:04:05 local time. -/
def baseEnv : Env where
  files := []
  modules := fun _ => { up := none, down := none }
  existsJs := fun _ => false
  clock := { month0 := 4, dayOfMonth := 7, year := 2024, hours := 3, minutes := 4, seconds := 5 }
  nowIso := "NOW"
  backupOutcome := ProcOutcome.closed 0
  backUpOptions := { DATASOURCE_URL := none, DB_BACKUP_DIR := none, ROOT_DIR := none }
  rootDir := "."
  rawDirExists := true

/-- The empty mutable world. -/
def mstEmpty : MState where
  ledger := []
  store := []
  log := []
  executedUp := []
  executedDown := []
  fsWrites := []

/-- One discovered file whose module's forward transform throws `"boom"`. -/
def failEnv : Env :=
  { baseEnv with
      files := ["a_1.ts"]
      modules := fun _ =>
        { up := some (fun _ => Except.error "boom"), down := none } }

/-- The state produced by the failing forward run of `failEnv`. -/
def stAfterFail : MState :=
  { mstEmpty with log := ["Migrating up a_1.ts"], executedUp := ["a_1.ts"] }

/-- Two discovered files: the first's module succeeds, the second exposes no
forward transform. -/
def abortEnv : Env :=
  { baseEnv with
      files := ["a_1.ts", "b_2.ts"]
      modules := fun n =>
        if n = "a_1" then { up := some (fun s => Except.ok s), down := none }
        else { up := none, down := none } }

/-- The state after `abortEnv`'s first unit has executed (non-test). -/
def stAfterFirst : MState :=
  { mstEmpty with
      ledger := [{ filename := "a_1.ts", dateMigrated := "NOW" }]
      log := ["Migrating up a_1.ts", "a_1.ts migrated successfully"]
      executedUp := ["a_1.ts"] }

/-- A catalog fully covered by the ledger (everything already migrated). -/
def envC1 : Env := { baseEnv with files := ["a_1.ts"] }

/-- A ledger that already records `a_1.ts`. -/
def stLedgered : MState :=
  { mstEmpty with ledger := [{ filename := "a_1.ts", dateMigrated := "T" }] }

/-! ## Order and substring bridging lemmas -/

theorem charListLt_iff (as : List Char) :
    ∀ bs, charListLt as bs = true ↔ List.Lex (· < ·) as bs := by
  induction as with
  | nil =>
    intro bs
    cases bs with
    | nil =>
      refine iff_of_false (by simp [charListLt]) ?_
      intro h
      nomatch h
    | cons b bs => exact iff_of_true rfl List.Lex.nil
  | cons a as ih =>
    intro bs
    cases bs with
    | nil =>
      refine iff_of_false (by simp [charListLt]) ?_
      intro h
      nomatch h
    | cons b bs =>
      rcases lt_trichotomy a b with h | h | h
      · refine iff_of_true ?_ (List.Lex.rel h)
        simp [charListLt, h]
      · subst h
        have hirr : ¬a < a := lt_irrefl a
        constructor
        · intro hc
          exact List.Lex.cons ((ih bs).mp (by simpa [charListLt, hirr] using hc))
        · intro hlt
          cases hlt with
          | cons h' => simpa [charListLt, hirr] using (ih bs).mpr h'
          | rel h' => exact absurd h' hirr
      · refine iff_of_false ?_ ?_
        · simp [charListLt, asymm h, h]
        · intro hlt
          cases hlt with
          | cons h' => exact absurd h (lt_irrefl a)
          | rel h' => exact absurd h' (asymm h)

theorem jsStrLt_iff (a b : String) : jsStrLt a b = true ↔ a < b := by
  rw [String.lt_iff_toList_lt]
  exact charListLt_iff a.data b.data

theorem fileSortLe_iff (a b : String) :
    fileSortLe a b = true ↔ suffixKey a ≤ suffixKey b := by
  unfold fileSortLe fileCompare
  simp only [decide_eq_true_eq]
  split
  · next h => simp [le_of_eq h]
  · next h =>
    rcases hc : jsStrLt (suffixKey a) (suffixKey b) with _ | _
    · have hnlt : ¬suffixKey a < suffixKey b := by
        intro hlt
        exact absurd ((jsStrLt_iff _ _).mpr hlt) (by simp [hc])
      have hba : suffixKey b < suffixKey a :=
        lt_of_le_of_ne (not_lt.mp hnlt) (Ne.symm h)
      simp [not_le.mpr hba]
    · have hlt := (jsStrLt_iff _ _).mp hc
      simp [le_of_lt hlt]

theorem fileSortLe_trans (a b c : String) (hab : fileSortLe a b = true)
    (hbc : fileSortLe b c = true) : fileSortLe a c = true := by
  rw [fileSortLe_iff] at *
  exact le_trans hab hbc

theorem fileSortLe_total (a b : String) : (fileSortLe a b || fileSortLe b a) = true := by
  rcases le_total (suffixKey a) (suffixKey b) with h | h
  · rw [Bool.or_eq_true]
    exact Or.inl ((fileSortLe_iff a b).mpr h)
  · rw [Bool.or_eq_true]
    exact Or.inr ((fileSortLe_iff b a).mpr h)

theorem listPrefixB_iff (n : List Char) :
    ∀ h, listPrefixB n h = true ↔ ∃ t, h = n ++ t := by
  induction n with
  | nil =>
    intro h
    exact iff_of_true rfl ⟨h, rfl⟩
  | cons a as ih =>
    intro h
    cases h with
    | nil =>
      refine iff_of_false (by simp [listPrefixB]) ?_
      rintro ⟨t, ht⟩
      simp at ht
    | cons b bs =>
      simp only [listPrefixB, Bool.and_eq_true, beq_iff_eq, ih bs]
      constructor
      · rintro ⟨rfl, t, rfl⟩
        exact ⟨t, rfl⟩
      · rintro ⟨t, ht⟩
        have hb : b = a := by
          have := congrArg (fun l => List.head? l) ht
          simpa using this
        subst hb
        refine ⟨rfl, t, ?_⟩
        simpa using ht

theorem listInfixB_iff (n : List Char) :
    ∀ h, listInfixB n h = true ↔ ∃ p t, h = p ++ n ++ t := by
  intro h
  induction h with
  | nil =>
    simp only [listInfixB, List.isEmpty_iff]
    constructor
    · rintro rfl
      exact ⟨[], [], rfl⟩
    · rintro ⟨p, t, ht⟩
      rcases List.append_eq_nil.mp (ht.symm) with ⟨h1, h2⟩
      exact (List.append_eq_nil.mp h1).2
  | cons b bs ih =>
    simp only [listInfixB, Bool.or_eq_true, listPrefixB_iff, ih]
    constructor
    · rintro (⟨t, ht⟩ | ⟨p, t, ht⟩)
      · exact ⟨[], t, by simpa using ht⟩
      · exact ⟨b :: p, t, by simp [ht]⟩
    · rintro ⟨p, t, ht⟩
      cases p with
      | nil =>
        left
        exact ⟨t, by simpa using ht⟩
      | cons c cp =>
        right
        rw [List.cons_append, List.cons_append, List.cons.injEq] at ht
        exact ⟨cp, t, ht.2⟩

theorem strContains_iff (hay needle : String) :
    strContains hay needle = true ↔ ∃ p t, hay.data = p ++ needle.data ++ t :=
  listInfixB_iff needle.data hay.data

/-! ## Forward-loop trace characterization -/
theorem runUp_eq (env : Env) (isTest : Bool) :
    ∀ (l : List String) (st : MState),
    runUp env isTest l st =
      ({ st with
          store := (upTrace env l st.store).store,
          executedUp := st.executedUp ++ (upTrace env l st.store).executed,
          log := st.log ++ (upTrace env l st.store).log,
          ledger := st.ledger ++
            (if isTest then [] else (upTrace env l st.store).succeeded.map (entryOf env)) },
       (upTrace env l st.store).outcome) := by
  intro l
  induction l with
  | nil =>
    intro st
    simp [runUp, upTrace]
  | cons file rest ih =>
    intro st
    cases hup : (env.modules (stripTs file)).up with
    | none => simp [runUp, upTrace, hup]
    | some up =>
      cases hres : up st.store with
      | error e => simp [runUp, upTrace, hup, hres]
      | ok s2 =>
        cases isTest
        · simp [runUp, upTrace, hup, hres, ih, entryOf]
        · simp [runUp, upTrace, hup, hres, ih, entryOf]


theorem upTrace_not_failed (env : Env) :
    ∀ (l : List String) (s : Store),
      (∀ e, (upTrace env l s).outcome ≠ UpOutcome.failed e) →
      (upTrace env l s).executed = (upTrace env l s).succeeded := by
  intro l
  induction l with
  | nil => intro s _; rfl
  | cons file rest ih =>
    intro s h
    cases hup : (env.modules (stripTs file)).up with
    | none => simp [upTrace, hup]
    | some up =>
      cases hres : up s with
      | error e =>
        exact absurd (by simp [upTrace, hup, hres]) (h e)
      | ok s2 =>
        have h2 : ∀ e, (upTrace env rest s2).outcome ≠ UpOutcome.failed e := by
          intro e
          have := h e
          simpa [upTrace, hup, hres] using this
        simp [upTrace, hup, hres, ih s2 h2]

theorem upTrace_failed (env : Env) :
    ∀ (l : List String) (s : Store) (e : String),
      (upTrace env l s).outcome = UpOutcome.failed e →
      ∃ bad rest2, l = (upTrace env l s).succeeded ++ bad :: rest2 ∧
        (upTrace env l s).executed = (upTrace env l s).succeeded ++ [bad] := by
  intro l
  induction l with
  | nil =>
    intro s e h
    simp [upTrace] at h
  | cons file rest ih =>
    intro s e h
    cases hup : (env.modules (stripTs file)).up with
    | none => simp [upTrace, hup] at h
    | some up =>
      cases hres : up s with
      | error e2 =>
        refine ⟨file, rest, ?_, ?_⟩ <;> simp [upTrace, hup, hres]
      | ok s2 =>
        have h2 : (upTrace env rest s2).outcome = UpOutcome.failed e := by
          simpa [upTrace, hup, hres] using h
        rcases ih s2 e h2 with ⟨bad, rest2, hl, hx⟩
        have hsucc : (upTrace env (file :: rest) s).succeeded =
            file :: (upTrace env rest s2).succeeded := by
          simp [upTrace, hup, hres]
        have hexec : (upTrace env (file :: rest) s).executed =
            file :: (upTrace env rest s2).executed := by
          simp [upTrace, hup, hres]
        refine ⟨bad, rest2, ?_, ?_⟩
        · rw [hsucc, List.cons_append, ← hl]
        · rw [hexec, hsucc, List.cons_append, hx]

theorem upTrace_append_completed (env : Env) :
    ∀ (l1 l2 : List String) (s : Store),
      (upTrace env l1 s).outcome = UpOutcome.completed →
      upTrace env (l1 ++ l2) s =
        { store := (upTrace env l2 (upTrace env l1 s).store).store,
          executed := (upTrace env l1 s).executed ++
            (upTrace env l2 (upTrace env l1 s).store).executed,
          succeeded := (upTrace env l1 s).succeeded ++
            (upTrace env l2 (upTrace env l1 s).store).succeeded,
          log := (upTrace env l1 s).log ++
            (upTrace env l2 (upTrace env l1 s).store).log,
          outcome := (upTrace env l2 (upTrace env l1 s).store).outcome } := by
  intro l1
  induction l1 with
  | nil => intro l2 s _; simp [upTrace]
  | cons file rest ih =>
    intro l2 s h
    cases hup : (env.modules (stripTs file)).up with
    | none => simp [upTrace, hup] at h
    | some up =>
      cases hres : up s with
      | error e => simp [upTrace, hup, hres] at h
      | ok s2 =>
        have h2 : (upTrace env rest s2).outcome = UpOutcome.completed := by
          simpa [upTrace, hup, hres] using h
        simp [upTrace, hup, hres, ih l2 s2 h2]

/-! ## The forward branch of executeMigration, in closed form -/

theorem executeMigration_up_eq (env : Env) (filename : String) (isTest : Bool) (st : MState) :
    executeMigration env "up" filename isTest st =
      (let pending := pendingFiles env.files (ledgerNames st)
       let st0 := if pending.isEmpty then
           { st with log := st.log ++ ["No migrations to execute. Database is up to date"] }
         else st
       let tr := upTrace env (sortFiles pending) st0.store
       let st1 : MState :=
         { st0 with
             store := tr.store
             executedUp := st0.executedUp ++ tr.executed
             log := st0.log ++ tr.log
             ledger := st0.ledger ++
               (if isTest then [] else tr.succeeded.map (entryOf env)) }
       let err : Option String :=
         match tr.outcome with
         | UpOutcome.failed e => some e
         | _ => none
       (st1, err)) := by
  simp only [executeMigration]
  rw [if_neg (by decide), if_neg (by decide)]
  rw [runUp_eq]

/-! ## Claim theorems -/

/-- C7 counterexample: the identifier generator evaluated on name
`"My Migration"` with extension `"ts"` at the fixed local instant
2024-05-07 03:04:05 does **not** return
`"my-migration_05-07-2024_030405.ts"` — the space survives normalisation,
because only underscores are replaced by hyphens. -/
theorem claim7_counterexample :
    appendTimestampToFilename ⟨4, 7, 2024, 3, 4, 5⟩ "My Migration" (some "ts") ≠
      "my-migration_05-07-2024_030405.ts" := by
  decide

/-- C7 (amended): the identifier generator, evaluated on name `"My Migration"`
with extension `"ts"` at the fixed local instant 2024-05-07 03:04:05, returns
exactly `"my migration_05-07-2024_030405.ts"`: normalisation trims,
lowercases and replaces underscores (not spaces) with hyphens, and the
month, day, hour, minute and second fields are zero-padded to two digits. -/
theorem claim7_timestamp_format :
    appendTimestampToFilename ⟨4, 7, 2024, 3, 4, 5⟩ "My Migration" (some "ts") =
      "my migration_05-07-2024_030405.ts" := rfl

/-- C9 counterexample: a backup process that launches and terminates with the
non-zero exit code 1 still resolves as success (`none`), so failure is not
reported for a non-zero-equivalent termination, contrary to the claim. -/
theorem claim9_counterexample :
    (migrate { baseEnv with backupOutcome := ProcOutcome.closed 1 }
      ["node", "script", "backup"] mstEmpty).2 = none := rfl

/-- C9 (amended): the backup operation rejects with the external tool's
message exactly when the dump process fails to launch; any termination
(`close` event), whatever the exit code, resolves as success. -/
theorem claim9_backup_termination (env : Env) (st : MState) :
    (∀ msg, env.backupOutcome = ProcOutcome.launchFailure msg →
      (migrate env ["node", "script", "backup"] st).2 = some msg) ∧
    (∀ code, env.backupOutcome = ProcOutcome.closed code →
      (migrate env ["node", "script", "backup"] st).2 = none) := by
  constructor
  · intro msg h
    simp [migrate, executeMigration, backupMongoDb, h]
  · intro code h
    simp [migrate, executeMigration, backupMongoDb, h]

/-- C9 witness: a launch failure rejects with its message; a clean close
resolves. -/
theorem claim9_witness :
    (migrate { baseEnv with backupOutcome := ProcOutcome.launchFailure "boom" }
        ["node", "script", "backup"] mstEmpty).2 = some "boom" ∧
    (migrate baseEnv ["node", "script", "backup"] mstEmpty).2 = none :=
  ⟨(claim9_backup_termination _ _).1 "boom" rfl,
   (claim9_backup_termination _ _).2 0 rfl⟩

/-- C8 counterexample: `create` invoked without a name surfaces an exception
(`some "Filename is missing"`) to the caller and logs nothing, contrary to
the claim that the missing argument is reported via log with no exception. -/
theorem claim8_counterexample :
    (migrate baseEnv ["node", "script", "create"] mstEmpty).2 ≠ none ∧
    (migrate baseEnv ["node", "script", "create"] mstEmpty).1.log = [] := by
  constructor
  · decide
  · rfl

/-- C8 (amended): `create` without a name throws `Error("Filename is
missing")` to the caller before touching any storage (no filesystem write, no
ledger write, nothing logged, state unchanged); `down` without a token logs
"Filename is missing" and returns normally, executing no unit and raising no
exception. -/
theorem claim8_missing_argument (env : Env) (st : MState) :
    migrate env ["node", "script", "create"] st = (st, some "Filename is missing") ∧
    migrate env ["node", "script", "down"] st =
      ({ st with log := st.log ++ ["Filename is missing"] }, none) := by
  constructor
  · rfl
  · rfl

/-- The `up` branch of `executeMigration` never reads its `filename` argument
(only the `down` branch does). -/
theorem executeMigration_up_ignores_filename (env : Env) (f1 f2 : String)
    (isTest : Bool) (st : MState) :
    executeMigration env "up" f1 isTest st = executeMigration env "up" f2 isTest st := rfl

/-- A forward `migrate` invocation whose token is not `"test"` behaves as the
plain non-test forward execution. -/
theorem migrate_up_token (env : Env) (st : MState) (a0 a1 t : String)
    (rest : List String) (h : t ≠ "test") :
    migrate env (a0 :: a1 :: "up" :: t :: rest) st =
      executeMigration env "up" "" false st := by
  have hb : (t == "test") = false := beq_eq_false_iff_ne.mpr h
  by_cases he : t = ""
  · subst he
    simp [migrate]
  · simp [migrate, hb, he]
    exact executeMigration_up_ignores_filename env t "" false st

/-- C10: for the forward action `up`, the optional token only matters when it
is exactly `"test"`: two invocations whose argument vectors agree except for
a non-`"test"` token (and anything after it) run the same units in the same
order with identical resulting state and outcome. -/
theorem claim10_token_noninterference (env : Env) (st : MState) (a0 a1 t1 t2 : String)
    (rest1 rest2 : List String) (h1 : t1 ≠ "test") (h2 : t2 ≠ "test") :
    migrate env (a0 :: a1 :: "up" :: t1 :: rest1) st =
      migrate env (a0 :: a1 :: "up" :: t2 :: rest2) st := by
  rw [migrate_up_token env st a0 a1 t1 rest1 h1,
      migrate_up_token env st a0 a1 t2 rest2 h2]

/-- C10 witness: an absent token versus the token `"abc"`. -/
theorem claim10_witness :
    migrate baseEnv ["node", "script", "up", ""] mstEmpty =
      migrate baseEnv ["node", "script", "up", "abc"] mstEmpty :=
  claim10_token_noninterference baseEnv mstEmpty "node" "script" "" "abc" [] []
    (by decide) (by decide)

/-- C1: for every catalog `C` (the directory listing) and ledger `L`, the
forward run computes the pending set as exactly `C` minus the ledgered
filenames, by exact filename equality; and whenever every catalog file is
ledgered, the pending set is empty and the run only logs
"No migrations to execute. Database is up to date" and returns without error,
executing no unit and leaving the whole state otherwise unchanged. -/
theorem claim1_pending_reconciliation (env : Env) (st : MState) (filename : String)
    (isTest : Bool) :
    (∀ f, f ∈ pendingFiles env.files (ledgerNames st) ↔
        f ∈ env.files ∧ f ∉ ledgerNames st) ∧
    ((∀ f ∈ env.files, f ∈ ledgerNames st) →
      pendingFiles env.files (ledgerNames st) = [] ∧
      executeMigration env "up" filename isTest st =
        ({ st with log := st.log ++
            ["No migrations to execute. Database is up to date"] }, none)) := by
  constructor
  · intro f
    simp [pendingFiles, List.mem_filter]
  · intro h
    have hp : pendingFiles env.files (ledgerNames st) = [] := by
      rw [pendingFiles, List.filter_eq_nil_iff]
      intro a ha
      simp [h a ha]
    refine ⟨hp, ?_⟩
    rw [executeMigration_up_eq]
    simp [hp, sortFiles, upTrace]

/-- C1 witness: a concrete fully-migrated catalog. -/
theorem claim1_witness :
    pendingFiles envC1.files (ledgerNames stLedgered) = [] ∧
    executeMigration envC1 "up" "" false stLedgered =
      ({ stLedgered with log := stLedgered.log ++
          ["No migrations to execute. Database is up to date"] }, none) :=
  (claim1_pending_reconciliation envC1 stLedgered "" false).2 (by decide)

/-- C3: when a forward (non-test) run ends in an uncaught transform failure,
the sequenced pending list splits as `done ++ bad :: rest`: exactly
`done ++ [bad]` were attempted in order (no later unit is attempted), and the
ledger gained entries exactly for the successfully completed prefix `done` —
none for the failing unit `bad`. -/
theorem claim3_transform_failure (env : Env) (filename : String) (st st2 : MState)
    (e : String)
    (h : executeMigration env "up" filename false st = (st2, some e)) :
    ∃ done bad rest,
      sortFiles (pendingFiles env.files (ledgerNames st)) = done ++ bad :: rest ∧
      st2.executedUp = st.executedUp ++ done ++ [bad] ∧
      st2.ledger = st.ledger ++ done.map (entryOf env) := by
  rw [executeMigration_up_eq] at h
  by_cases hemp : pendingFiles env.files (ledgerNames st) = []
  · exfalso
    simp [hemp, sortFiles, upTrace] at h
  · have hne : (pendingFiles env.files (ledgerNames st)).isEmpty = false := by
      simpa [List.isEmpty_iff] using hemp
    simp only [hne, Bool.false_eq_true, if_false] at h
    rw [Prod.mk.injEq] at h
    obtain ⟨hst, herr⟩ := h
    cases ho : (upTrace env (sortFiles (pendingFiles env.files (ledgerNames st))) st.store).outcome with
    | completed => simp [ho] at herr
    | aborted => simp [ho] at herr
    | failed e2 =>
      rw [ho] at herr
      rcases upTrace_failed env _ _ _ ho with ⟨bad, rest2, hl, hx⟩
      refine ⟨(upTrace env (sortFiles (pendingFiles env.files (ledgerNames st))) st.store).succeeded,
        bad, rest2, hl, ?_, ?_⟩
      · rw [← hst]
        simp [hx, List.append_assoc]
      · rw [← hst]

-- C3 witness: one pending unit whose forward transform throws "boom".
unseal List.mergeSort List.merge in
theorem claim3_witness :
    ∃ done bad rest,
      sortFiles (pendingFiles failEnv.files (ledgerNames mstEmpty)) = done ++ bad :: rest ∧
      stAfterFail.executedUp = mstEmpty.executedUp ++ done ++ [bad] ∧
      stAfterFail.ledger = mstEmpty.ledger ++ done.map (entryOf failEnv) :=
  claim3_transform_failure failEnv "" mstEmpty stAfterFail "boom" rfl

/-- C4: when the pending sequence reaches a unit whose resolved module
exposes no forward transform, the run stops: that unit and all later pending
units are not executed, no ledger entry is written for any of them, only the
log line "migration up function not found" is added, and the call returns
normally (`none`), indistinguishable from a completed run. -/
theorem claim4_missing_up_aborts (env : Env) (filename : String) (isTest : Bool)
    (st st1 : MState) (done : List String) (bad : String) (rest : List String)
    (hsort : sortFiles (pendingFiles env.files (ledgerNames st)) = done ++ bad :: rest)
    (hdone : runUp env isTest done st = (st1, UpOutcome.completed))
    (hbad : (env.modules (stripTs bad)).up = none) :
    executeMigration env "up" filename isTest st =
      ({ st1 with log := st1.log ++ ["migration up function not found"] }, none) := by
  have hemp : pendingFiles env.files (ledgerNames st) ≠ [] := by
    intro hnil
    rw [hnil] at hsort
    simp [sortFiles] at hsort
  have hne : ¬((pendingFiles env.files (ledgerNames st)).isEmpty = true) := by
    simp [List.isEmpty_iff, hemp]
  rw [runUp_eq] at hdone
  rw [Prod.mk.injEq] at hdone
  obtain ⟨hst1, hout⟩ := hdone
  rw [executeMigration_up_eq]
  simp only [if_neg hne]
  rw [hsort]
  rw [upTrace_append_completed env done (bad :: rest) st.store hout]
  have htr2 : upTrace env (bad :: rest) (upTrace env done st.store).store =
      { store := (upTrace env done st.store).store, executed := [], succeeded := [],
        log := ["migration up function not found"], outcome := UpOutcome.aborted } := by
    simp [upTrace, hbad]
  rw [htr2]
  rw [← hst1]
  simp

-- C4 witness: the first unit succeeds, the second exposes no forward transform.
unseal List.mergeSort List.merge in
theorem claim4_witness :
    executeMigration abortEnv "up" "" false mstEmpty =
      ({ stAfterFirst with
          log := stAfterFirst.log ++ ["migration up function not found"] }, none) :=
  claim4_missing_up_aborts abortEnv "" false mstEmpty stAfterFirst ["a_1.ts"] "b_2.ts" []
    rfl rfl rfl

/-- The reverse loop never touches the ledger. -/
theorem runDown_ledger (env : Env) :
    ∀ (l : List String) (st : MState), ((runDown env l st).1).ledger = st.ledger := by
  intro l
  induction l with
  | nil => intro st; rfl
  | cons file rest ih =>
    intro st
    by_cases hex : env.existsJs (stripTs file) = true
    · cases hdn : (env.modules (stripTs file)).down with
      | none => simp [runDown, hex, hdn]
      | some down =>
        cases hres : down st.store with
        | error e => simp [runDown, hex, hdn, hres]
        | ok s2 => simp [runDown, hex, hdn, hres, ih]
    · simp only [runDown]
      rw [if_neg hex]
      exact ih _

/-- The `down` branch of `executeMigration`, in closed form. -/
theorem executeMigration_down_eq (env : Env) (tok : String) (isTest : Bool)
    (st : MState) :
    executeMigration env "down" tok isTest st =
      (if tok = "" then ({ st with log := st.log ++ ["Filename is missing"] }, none)
       else if ((ledgerNames st).filter (fun file => strContains file tok)).isEmpty then
         ({ st with log := st.log ++
             ["You\x27re trying to migrate down a file that is not yet migrated"] }, none)
       else
         runDown env ((ledgerNames st).filter (fun file => strContains file tok)) st) := rfl

/-- A reverse run never changes the ledger, whatever the token. -/
theorem executeMigration_down_ledger (env : Env) (tok : String) (isTest : Bool)
    (st : MState) : ((executeMigration env "down" tok isTest st).1).ledger = st.ledger := by
  rw [executeMigration_down_eq]
  by_cases he : tok = ""
  · simp [he]
  · rw [if_neg he]
    by_cases hf : ((ledgerNames st).filter (fun file => strContains file tok)).isEmpty = true
    · rw [if_pos hf]
    · rw [if_neg hf]
      exact runDown_ledger env _ st

/-- C5: across the four actions, only a successful non-test forward execution
mutates the ledger: `create`, `backup` and `down` leave it unchanged (even
after successfully reverting a unit), a `"test"`-flagged forward run invokes
exactly the same transforms on the same store as the non-test run but leaves
the ledger unchanged, and a non-test forward run appends exactly one entry
per successfully executed unit. -/
theorem claim5_ledger_mutation (env : Env) (st : MState) (name tok : String) :
    ((migrate env ["node", "script", "create", name] st).1).ledger = st.ledger ∧
    ((migrate env ["node", "script", "backup"] st).1).ledger = st.ledger ∧
    ((migrate env ["node", "script", "down", tok] st).1).ledger = st.ledger ∧
    ((migrate env ["node", "script", "up", "test"] st).1).ledger = st.ledger ∧
    ((migrate env ["node", "script", "up", "test"] st).1).executedUp =
      ((executeMigration env "up" tok false st).1).executedUp ∧
    ((migrate env ["node", "script", "up", "test"] st).1).store =
      ((executeMigration env "up" tok false st).1).store ∧
    (∀ st2 out,
      runUp env false (sortFiles (pendingFiles env.files (ledgerNames st))) st = (st2, out) →
      ∃ newExec, st2.executedUp = st.executedUp ++ newExec ∧
        (out = UpOutcome.completed ∨ out = UpOutcome.aborted →
          st2.ledger = st.ledger ++ newExec.map (entryOf env)) ∧
        (∀ e, out = UpOutcome.failed e →
          ∃ done bad, newExec = done ++ [bad] ∧
            st2.ledger = st.ledger ++ done.map (entryOf env))) := by
  refine ⟨?_, ?_, ?_, ?_, ?_, ?_, ?_⟩
  · by_cases hn : name = ""
    · subst hn
      rfl
    · by_cases hr : env.rawDirExists = true
      · simp [migrate, generateMigrationFile, hn, hr]
      · simp [migrate, generateMigrationFile, hn, hr]
  · cases hb : env.backupOutcome with
    | launchFailure msg => simp [migrate, executeMigration, backupMongoDb, hb]
    | closed code => simp [migrate, executeMigration, backupMongoDb, hb]
  · have : migrate env ["node", "script", "down", tok] st =
        executeMigration env "down" tok (tok == "test") st := by
      by_cases he : tok = ""
      · subst he
        rfl
      · simp [migrate, he]
    rw [this]
    exact executeMigration_down_ledger env tok (tok == "test") st
  · have hm : migrate env ["node", "script", "up", "test"] st =
        executeMigration env "up" "test" true st := rfl
    rw [hm, executeMigration_up_eq]
    by_cases hi : (pendingFiles env.files (ledgerNames st)).isEmpty = true
    · simp [hi]
    · simp [hi]
  · have hm : migrate env ["node", "script", "up", "test"] st =
        executeMigration env "up" "test" true st := rfl
    rw [hm, executeMigration_up_eq, executeMigration_up_eq]
  · have hm : migrate env ["node", "script", "up", "test"] st =
        executeMigration env "up" "test" true st := rfl
    rw [hm, executeMigration_up_eq, executeMigration_up_eq]
  · intro st2 out h
    rw [runUp_eq] at h
    rw [Prod.mk.injEq] at h
    obtain ⟨hst, hout⟩ := h
    refine ⟨(upTrace env (sortFiles (pendingFiles env.files (ledgerNames st))) st.store).executed,
      ?_, ?_, ?_⟩
    · rw [← hst]
    · intro hco
      have hnf : ∀ e, (upTrace env (sortFiles (pendingFiles env.files (ledgerNames st)))
          st.store).outcome ≠ UpOutcome.failed e := by
        intro e2
        rcases hco with hc | hc <;> rw [hout, hc] <;> simp
      have hes := upTrace_not_failed env _ _ hnf
      rw [← hst]
      simp [hes]
    · intro e he
      have he2 := hout.trans he
      rcases upTrace_failed env _ _ _ he2 with ⟨bad, rest2, hl, hx⟩
      refine ⟨(upTrace env (sortFiles (pendingFiles env.files (ledgerNames st)))
          st.store).succeeded, bad, hx, ?_⟩
      rw [← hst]
      simp

-- C5 witness: the non-test append characterization on a concrete failing run.
unseal List.mergeSort List.merge in
theorem claim5_witness :
    ∃ newExec, stAfterFail.executedUp = mstEmpty.executedUp ++ newExec ∧
      (UpOutcome.failed "boom" = UpOutcome.completed ∨
        UpOutcome.failed "boom" = UpOutcome.aborted →
        stAfterFail.ledger = mstEmpty.ledger ++ newExec.map (entryOf failEnv)) ∧
      (∀ e, UpOutcome.failed "boom" = UpOutcome.failed e →
        ∃ done bad, newExec = done ++ [bad] ∧
          stAfterFail.ledger = mstEmpty.ledger ++ done.map (entryOf failEnv)) :=
  (claim5_ledger_mutation failEnv mstEmpty "x" "y").2.2.2.2.2.2 stAfterFail
    (UpOutcome.failed "boom") rfl

/-- C6: a reverse run with non-empty token `tok` selects exactly the ledgered
filenames containing `tok` as a substring (not exact match); zero matches
yield zero executions and only the informational log line, without error; a
non-empty selection is exactly what the reverse loop then executes. -/
theorem claim6_down_token_selection (env : Env) (st : MState) (tok : String)
    (htok : tok ≠ "") :
    (∀ f, f ∈ (ledgerNames st).filter (fun file => strContains file tok) ↔
        (f ∈ ledgerNames st ∧ ∃ p t, f.data = p ++ tok.data ++ t)) ∧
    ((ledgerNames st).filter (fun file => strContains file tok) = [] →
      executeMigration env "down" tok false st =
        ({ st with log := st.log ++
            ["You\x27re trying to migrate down a file that is not yet migrated"] }, none)) ∧
    ((ledgerNames st).filter (fun file => strContains file tok) ≠ [] →
      executeMigration env "down" tok false st =
        runDown env ((ledgerNames st).filter (fun file => strContains file tok)) st) := by
  refine ⟨?_, ?_, ?_⟩
  · intro f
    simp [List.mem_filter, strContains_iff]
  · intro hf
    rw [executeMigration_down_eq, if_neg htok, if_pos (by simp [hf])]
  · intro hf
    rw [executeMigration_down_eq, if_neg htok, if_neg (by simp [List.isEmpty_iff, hf])]

/-- C6 witness: a ledgered file `a_1.ts`, with a non-matching and a matching
token. -/
theorem claim6_witness :
    (executeMigration baseEnv "down" "zzz" false stLedgered =
      ({ stLedgered with log := stLedgered.log ++
          ["You\x27re trying to migrate down a file that is not yet migrated"] }, none)) ∧
    (executeMigration baseEnv "down" "a_1" false stLedgered =
      runDown baseEnv ((ledgerNames stLedgered).filter
        (fun file => strContains file "a_1")) stLedgered) :=
  ⟨(claim6_down_token_selection baseEnv stLedgered "zzz" (by decide)).2.1 rfl,
   (claim6_down_token_selection baseEnv stLedgered "a_1" (by decide)).2.2 (by decide)⟩

/-- C2: the sequencer permutes the pending list into ascending order of the
suffix obtained by dropping the first underscore-delimited segment
(`split('_')`, `shift()`, `join('_')`), compared lexically; and the
comparator returns `0` exactly on equal stripped suffixes (no further
tie-break) and `-1` exactly when the first stripped suffix is lexically
smaller. -/
theorem claim2_sequencer_order (l : List String) :
    List.Perm (sortFiles l) l ∧
    List.Pairwise (fun a b => suffixKey a ≤ suffixKey b) (sortFiles l) ∧
    (∀ f1 f2, fileCompare f1 f2 = 0 ↔ suffixKey f1 = suffixKey f2) ∧
    (∀ f1 f2, fileCompare f1 f2 = -1 ↔ suffixKey f1 < suffixKey f2) := by
  refine ⟨List.mergeSort_perm l fileSortLe, ?_, ?_, ?_⟩
  · have hs := @List.sorted_mergeSort String fileSortLe fileSortLe_trans fileSortLe_total l
    exact hs.imp (fun h => (fileSortLe_iff _ _).mp h)
  · intro f1 f2
    unfold fileCompare
    by_cases h : suffixKey f1 = suffixKey f2
    · simp [h]
    · rcases hlt : jsStrLt (suffixKey f1) (suffixKey f2) with _ | _
      · simp [h, hlt]
      · simp [h, hlt]
  · intro f1 f2
    unfold fileCompare
    by_cases h : suffixKey f1 = suffixKey f2
    · simp [h]
    · rcases hlt : jsStrLt (suffixKey f1) (suffixKey f2) with _ | _
      · have hnlt : ¬suffixKey f1 < suffixKey f2 := fun hc =>
          by simpa [hlt] using (jsStrLt_iff (suffixKey f1) (suffixKey f2)).mpr hc
        simp [h, hlt, hnlt]
      · have hl := (jsStrLt_iff (suffixKey f1) (suffixKey f2)).mp hlt
        simp [h, hlt, hl]
